import Mathlib

/-!
Shallow embedding of the in-memory SQL engine in `database.py`
(classes `Table`, `Database` and their statement executors), together
with theorems checking the natural-language specification against it.

Python values flowing through the interpreter are `None`, `int`, `float`
and `str`; they are embedded as the inductive `Value`, with Python floats
modelled as exact rationals (no claim below depends on rounding).
Python's in-place mutation of tables is modelled by explicit state
passing: each executor returns the post-statement catalog.
-/

namespace SqlSpec

/-- Declarable column types (`sc.TokenType.INT/FLOAT/TEXT/DATE`). -/
inductive SqlType
  | int
  | float
  | text
  | date
deriving DecidableEq

/-- Runtime values: Python `None`, `int`, `float`, `str`. -/
inductive Value
  | null
  | vint (n : Int)
  | vfloat (q : ℚ)
  | vstr (s : String)
deriving DecidableEq

/-- `isinstance(value, (int, float))`. -/
def Value.isNumeric : Value → Bool
  | .vint _ => true
  | .vfloat _ => true
  | _ => false

/-- `isinstance(value, int)`. -/
def Value.isInt : Value → Bool
  | .vint _ => true
  | _ => false

/-- `isinstance(value, float)`. -/
def Value.isFloat : Value → Bool
  | .vfloat _ => true
  | _ => false

/-- `isinstance(value, str)`. -/
def Value.isStr : Value → Bool
  | .vstr _ => true
  | _ => false

/-- Numeric content of a numeric value (only applied under an `isNumeric` guard). -/
def toRat : Value → ℚ
  | .vint n => (n : ℚ)
  | .vfloat q => q
  | _ => 0

/-- Python `value == 0` for a numeric value (`5/0` and `5/0.0` both trip the guard). -/
def isZeroNum : Value → Bool
  | .vint n => n == 0
  | .vfloat q => q.num == 0
  | _ => false

/-- Python `type(a) == type(b)` over the four runtime categories. -/
def sameCtor : Value → Value → Bool
  | .null, .null => true
  | .vint _, .vint _ => true
  | .vfloat _, .vfloat _ => true
  | .vstr _, .vstr _ => true
  | _, _ => false

/-- Python truthiness of a value (`None`, `0`, `0.0`, `""` are falsy). -/
def Value.truthy : Value → Bool
  | .null => false
  | .vint n => n != 0
  | .vfloat q => q.num != 0
  | .vstr s => s != ""

/-- ASCII lower-casing of one character (Python `str.lower` restricted to
the ASCII identifiers this engine handles). -/
def charLower (c : Char) : Char :=
  if 65 ≤ c.toNat ∧ c.toNat ≤ 90 then Char.ofNat (c.toNat + 32) else c

/-- Python `name.lower()` (ASCII model, kernel-reducible). -/
def strLower (s : String) : String := ⟨s.data.map charLower⟩

/-- `ColumnDef` from `database.py`. -/
structure ColumnDef where
  name : String
  type : SqlType
deriving DecidableEq

/-- Binary operators handled by `Database._evaluate_expression`. -/
inductive BinOp
  | plus
  | minus
  | times
  | divide
  | dot
deriving DecidableEq

/-- Expression AST nodes (`IDENTIFIER`, `LITERAL`, `EXPRESSION`). -/
inductive Expr
  | ident (name : String)
  | lit (v : Value)
  | bin (l : Expr) (op : BinOp) (r : Expr)
deriving DecidableEq

/-- Comparison operators handled by `Database._evaluate_condition`. -/
inductive CmpOp
  | eq
  | ne
  | gt
  | lt
  | ge
  | le
deriving DecidableEq

/-- Condition AST nodes (`CONDITION` nodes, per the spec's `Condition` tag:
logical `AND`/`OR`/`NOT`, a comparison, or an operator-less condition). -/
inductive Cond
  | and (l r : Cond)
  | or (l r : Cond)
  | not (r : Cond)
  | cmp (l : Expr) (op : CmpOp) (r : Expr)
  | noOp (l : Expr)
deriving DecidableEq

/-- A condition evaluation result: Python returns either a `bool` or, through
the fall-through branch, an arbitrary value. -/
inductive CondVal
  | bool (b : Bool)
  | val (v : Value)
deriving DecidableEq

/-- Python truthiness of a condition result. -/
def CondVal.truthy : CondVal → Bool
  | .bool b => b
  | .val v => v.truthy

/-- `Table` from `database.py` (the mutable `rows` list is a field here;
mutation is modelled by rebuilding the record). -/
structure Table where
  name : String
  title : String
  columns : List ColumnDef
  rows : List (List Value)
deriving DecidableEq

/-- `Table.__init__`: `self.title = title if title else name` (empty or
absent titles fall back to the name). -/
def mkTable (name : String) (columns : List ColumnDef) (title : Option String) : Table :=
  { name := name
    title := match title with
      | some s => if s = "" then name else s
      | none => name
    columns := columns
    rows := [] }

/-- `Table.get_column_index`: first index whose lower-cased name matches,
`-1` (here `none`) otherwise. -/
def getColumnIndex (cols : List ColumnDef) (name : String) : Option Nat :=
  match cols with
  | [] => none
  | c :: rest =>
    if strLower c.name == strLower name then some 0
    else (getColumnIndex rest name).map (· + 1)

/-- `Table._validate_type`. -/
def validateType (value : Value) (expected : SqlType) : Bool :=
  match value, expected with
  | .null, _ => true
  | .vint _, .int => true
  | _, .int => false
  | .vint _, .float => true
  | .vfloat _, .float => true
  | _, .float => false
  | .vstr _, .text => true
  | _, .text => false
  | .vstr _, .date => true
  | _, .date => false

/-- Python `int + int = int`, any float operand makes the result a float. -/
def numAdd : Value → Value → Value
  | .vint a, .vint b => .vint (a + b)
  | a, b => .vfloat (toRat a + toRat b)

/-- Python subtraction on numbers. -/
def numSub : Value → Value → Value
  | .vint a, .vint b => .vint (a - b)
  | a, b => .vfloat (toRat a - toRat b)

/-- Python multiplication on numbers. -/
def numMul : Value → Value → Value
  | .vint a, .vint b => .vint (a * b)
  | a, b => .vfloat (toRat a * toRat b)

/-- `Database._evaluate_expression(expr, table, row)`.  Identifiers resolve
to the row's cell only when both a table and a (non-empty, Python-truthy)
row are supplied and the name matches a column; otherwise the identifier's
own name is returned as a string.  Arithmetic demands numeric operands and
yields `None` (here `Value.null`) on a type error or a zero divisor; `/` is
Python true division, always a float. -/
def evaluateExpression (table : Option Table) (row : Option (List Value)) : Expr → Value
  | .ident n =>
    match table, row with
    | some t, some r =>
      if r.isEmpty then .vstr n
      else
        match getColumnIndex t.columns n with
        | some i => r.getD i .null
        | none => .vstr n
    | _, _ => .vstr n
  | .lit v => v
  | .bin l op r =>
    let lv := evaluateExpression table row l
    let rv := evaluateExpression table row r
    match op with
    | .dot =>
      match lv, rv with
      | .vstr _, .vstr s => .vstr s
      | _, _ => .null
    | .plus => if lv.isNumeric && rv.isNumeric then numAdd lv rv else .null
    | .minus => if lv.isNumeric && rv.isNumeric then numSub lv rv else .null
    | .times => if lv.isNumeric && rv.isNumeric then numMul lv rv else .null
    | .divide =>
      if lv.isNumeric && rv.isNumeric then
        if isZeroNum rv then .null else .vfloat (toRat lv / toRat rv)
      else .null

/-- Python lexicographic `<` on strings (code-point order, prefix first). -/
def charListLt : List Char → List Char → Bool
  | [], [] => false
  | [], _ :: _ => true
  | _ :: _, [] => false
  | a :: as, b :: bs =>
    if a.val < b.val then true
    else if a.val == b.val then charListLt as bs
    else false

/-- Applying a comparison operator the way Python does once the interpreter's
type check passed: numeric pairs compare numerically, strings compare
lexicographically, `None` supports only `==`/`!=` (an ordered comparison of
two `None`s raises `TypeError`, modelled as `none`). -/
def evalCmp (op : CmpOp) (l r : Value) : Option Bool :=
  if l.isNumeric && r.isNumeric then
    some (match op with
      | .eq => decide (toRat l = toRat r)
      | .ne => decide (toRat l ≠ toRat r)
      | .gt => decide (toRat r < toRat l)
      | .lt => decide (toRat l < toRat r)
      | .ge => decide (toRat r ≤ toRat l)
      | .le => decide (toRat l ≤ toRat r))
  else
    match l, r with
    | .vstr a, .vstr b =>
      some (match op with
        | .eq => a == b
        | .ne => a != b
        | .gt => charListLt b.data a.data
        | .lt => charListLt a.data b.data
        | .ge => !charListLt a.data b.data
        | .le => !charListLt b.data a.data)
    | .null, .null =>
      match op with
      | .eq => some true
      | .ne => some false
      | _ => none
    | _, _ => none

/-- `Database._evaluate_condition(condition, table, row)`.  `none` models a
Python exception escaping the evaluator (only an ordered comparison of two
`None`s).  `AND`/`OR`/`NOT` evaluate their operands and fold any non-boolean
sub-result into `false`; a comparison first requires identical runtime types
or two numerics, else evaluates to `False`; an operator-less `CONDITION`
node falls through to `_evaluate_expression`, which does not recognise the
node kind and yields `None`. -/
def evaluateCondition (t : Table) (row : List Value) : Cond → Option CondVal
  | .and l r =>
    match evaluateCondition t row l, evaluateCondition t row r with
    | some (.bool a), some (.bool b) => some (.bool (a && b))
    | some _, some _ => some (.bool false)
    | _, _ => none
  | .or l r =>
    match evaluateCondition t row l, evaluateCondition t row r with
    | some (.bool a), some (.bool b) => some (.bool (a || b))
    | some _, some _ => some (.bool false)
    | _, _ => none
  | .not c =>
    match evaluateCondition t row c with
    | some (.bool b) => some (.bool !b)
    | some _ => some (.bool false)
    | none => none
  | .cmp l op r =>
    let lv := evaluateExpression (some t) (some row) l
    let rv := evaluateExpression (some t) (some row) r
    if sameCtor lv rv || (lv.isNumeric && rv.isNumeric) then
      (evalCmp op lv rv).map CondVal.bool
    else some (.bool false)
  | .noOp _ => some (.val .null)

/-- `Database`: a dict from lower-cased table name to `Table`, in insertion
order. -/
structure Database where
  tables : List (String × Table)
deriving DecidableEq

/-- A fresh `Database()`. -/
def Database.empty : Database := ⟨[]⟩

/-- `Database.get_table` (case-insensitive lookup). -/
def getTable (db : Database) (name : String) : Option Table :=
  (db.tables.find? (fun e => e.1 == strLower name)).map (·.2)

/-- Replacing the table stored under `key`, modelling Python's in-place
mutation of the `Table` object held in the dict. -/
def setTable (db : Database) (key : String) (t : Table) : Database :=
  ⟨db.tables.map (fun e => if e.1 == key then (key, t) else e)⟩

/-- Errors produced by `Table.add_row` (printed messages in the source). -/
inductive AddRowErr
  | columnCountMismatch
  | typeMismatch
deriving DecidableEq

/-- `Table.add_row`: reject a wrong-length row, then validate every value
against its column's declared type, then append. -/
def addRow (t : Table) (values : List Value) : Except AddRowErr Table :=
  if values.length ≠ t.columns.length then .error .columnCountMismatch
  else if (values.zip t.columns).all (fun p => validateType p.1 p.2.type) then
    .ok { t with rows := t.rows ++ [values] }
  else .error .typeMismatch

/-- `Database.create_table`: reject a duplicate (case-folded) name, else
store a fresh table under the lower-cased name. -/
def createTable (db : Database) (name : String) (cols : List ColumnDef)
    (title : Option String) : Bool × Database :=
  if (db.tables.find? (fun e => e.1 == strLower name)).isSome then (false, db)
  else (true, ⟨db.tables ++ [(strLower name, mkTable name cols title)]⟩)

/-- `Database.drop_table`. -/
def dropTable (db : Database) (name : String) : Bool × Database :=
  if (db.tables.find? (fun e => e.1 == strLower name)).isSome then
    (true, ⟨db.tables.filter (fun e => e.1 != strLower name)⟩)
  else (false, db)

/-- `INSERT` statement AST: an empty column list models Python's falsy
`columns` (positional insert). -/
structure InsertAst where
  table : String
  columns : List Expr
  values : List Expr
deriving DecidableEq

/-- `UPDATE` statement AST. -/
structure UpdateAst where
  table : String
  setClauses : List (Expr × Expr)
  whereClause : Option Cond
deriving DecidableEq

/-- `DELETE` statement AST. -/
structure DeleteAst where
  table : String
  whereClause : Option Cond
deriving DecidableEq

/-- `SELECT` statement AST (`tables` is the parsed table list; only the
first entry is consulted). -/
structure SelectAst where
  tables : List String
  columns : List Expr
  whereClause : Option Cond
deriving DecidableEq

/-- `CREATE TABLE` statement AST: column name nodes paired with a declared
type. -/
structure CreateAst where
  table : String
  columns : List (Expr × SqlType)
  title : Option String
deriving DecidableEq

/-- `DROP TABLE` statement AST. -/
structure DropAst where
  table : String
deriving DecidableEq

/-- Failure kinds of `_execute_insert` (each `return False` site, labelled
with the spec's taxonomy). -/
inductive InsertErr
  | unknownTable
  | unsupportedColumnRef
  | unknownColumn
  | columnCountMismatch
  | typeMismatch
deriving DecidableEq

/-- Mapping `add_row` failures into the insert error kinds. -/
def liftAddErr : AddRowErr → InsertErr
  | .columnCountMismatch => .columnCountMismatch
  | .typeMismatch => .typeMismatch

/-- The column-resolution loop of `_execute_insert`: each column node must
be an identifier naming an existing column. -/
def resolveCols (t : Table) : List Expr → Except InsertErr (List Nat)
  | [] => .ok []
  | .ident n :: rest =>
    match getColumnIndex t.columns n with
    | none => .error .unknownColumn
    | some i => (resolveCols t rest).map (i :: ·)
  | _ :: _ => .error .unsupportedColumnRef

/-- `row_values = [None] * len(table.columns)` then
`row_values[col_idx] = values_to_insert[i]` for each listed column. -/
def scatterRow (n : Nat) (idxs : List Nat) (vals : List Value) : List Value :=
  (idxs.zip vals).foldl (fun r p => r.set p.1 p.2) (List.replicate n Value.null)

/-- `Database._execute_insert`.  Values are evaluated with no table/row
context; the catalog is returned unchanged on every failure path. -/
def executeInsert (ast : InsertAst) (db : Database) : Option InsertErr × Database :=
  match getTable db ast.table with
  | none => (some .unknownTable, db)
  | some t =>
    let vals := ast.values.map (evaluateExpression none none)
    if ast.columns.isEmpty then
      if vals.length ≠ t.columns.length then (some .columnCountMismatch, db)
      else
        match addRow t vals with
        | .error e => (some (liftAddErr e), db)
        | .ok t2 => (none, setTable db (strLower ast.table) t2)
    else
      match resolveCols t ast.columns with
      | .error e => (some e, db)
      | .ok idxs =>
        if idxs.length ≠ vals.length then (some .columnCountMismatch, db)
        else
          match addRow t (scatterRow t.columns.length idxs vals) with
          | .error e => (some (liftAddErr e), db)
          | .ok t2 => (none, setTable db (strLower ast.table) t2)

/-- Result of `_execute_update`: a success carries the printed
`rows_updated` count; a `fail` is a `return False` (no count); a `crash`
is a Python exception escaping mid-scan. -/
inductive UpdRes
  | ok (n : Nat)
  | fail
  | crash
deriving DecidableEq

/-- The SET-clause resolution loop of `_execute_update`: each target must be
an identifier naming an existing column; the new value is evaluated once,
at statement scope, with no table/row context. -/
def resolveSets (t : Table) : List (Expr × Expr) → Option (List (Nat × Value))
  | [] => some []
  | (lhs, rhs) :: rest =>
    match lhs with
    | .ident n =>
      match getColumnIndex t.columns n with
      | none => none
      | some i =>
        (resolveSets t rest).map ((i, evaluateExpression none none rhs) :: ·)
    | _ => none

/-- `row.qualifies`: no WHERE clause, or the evaluated condition is
Python-truthy (`none` = exception while evaluating the condition). -/
def rowQualifies (w : Option Cond) (t : Table) (row : List Value) : Option Bool :=
  match w with
  | none => some true
  | some c => (evaluateCondition t row c).map CondVal.truthy

/-- The inner SET loop of `_execute_update` on one row: validate each new
value against its column's declared type before mutating; stop at the first
failure, leaving earlier targets of the same row already mutated. -/
def applySets (t : Table) : List (Nat × Value) → List Value → Bool × List Value
  | [], row => (true, row)
  | (i, v) :: rest, row =>
    if validateType v ((t.columns.getD i ⟨"", .int⟩).type) then
      applySets t rest (row.set i v)
    else (false, row)

/-- Outcome of the row scan of `_execute_update`: the rows list as left in
the table (mutations are in place, so aborts keep everything written so
far) plus, on a clean finish, the count of updated rows. -/
inductive ScanOut
  | done (rows : List (List Value)) (n : Nat)
  | failed (rows : List (List Value))
  | crashed (rows : List (List Value))
deriving DecidableEq

/-- The row scan of `_execute_update`. -/
def updateScan (t : Table) (w : Option Cond) (cls : List (Nat × Value)) :
    List (List Value) → ScanOut
  | [] => .done [] 0
  | row :: rest =>
    match rowQualifies w t row with
    | none => .crashed (row :: rest)
    | some false =>
      match updateScan t w cls rest with
      | .done rs n => .done (row :: rs) n
      | .failed rs => .failed (row :: rs)
      | .crashed rs => .crashed (row :: rs)
    | some true =>
      match applySets t cls row with
      | (true, row2) =>
        match updateScan t w cls rest with
        | .done rs n => .done (row2 :: rs) (n + 1)
        | .failed rs => .failed (row2 :: rs)
        | .crashed rs => .crashed (row2 :: rs)
      | (false, row2) => .failed (row2 :: rest)

/-- `Database._execute_update`. -/
def executeUpdate (ast : UpdateAst) (db : Database) : UpdRes × Database :=
  match getTable db ast.table with
  | none => (.fail, db)
  | some t =>
    match resolveSets t ast.setClauses with
    | none => (.fail, db)
    | some cls =>
      match updateScan t ast.whereClause cls t.rows with
      | .done rs n => (.ok n, setTable db (strLower ast.table) { t with rows := rs })
      | .failed rs => (.fail, setTable db (strLower ast.table) { t with rows := rs })
      | .crashed rs => (.crash, setTable db (strLower ast.table) { t with rows := rs })

/-- Result of `_execute_delete` / `_execute_select`-style statements. -/
inductive DelRes
  | ok (n : Nat)
  | fail
  | crash
deriving DecidableEq

/-- The keep/remove partition of `_execute_delete`: a row is kept when a
WHERE clause is present and its evaluated condition is not truthy; `none`
models an exception during condition evaluation (the table is then never
reassigned). -/
def deleteScan (t : Table) (w : Cond) :
    List (List Value) → Option (List (List Value) × Nat)
  | [] => some ([], 0)
  | row :: rest =>
    match evaluateCondition t row w with
    | none => none
    | some cv =>
      match deleteScan t w rest with
      | none => none
      | some (keep, n) =>
        if cv.truthy then some (keep, n + 1) else some (row :: keep, n)

/-- `Database._execute_delete` (no WHERE clause deletes every row). -/
def executeDelete (ast : DeleteAst) (db : Database) : DelRes × Database :=
  match getTable db ast.table with
  | none => (.fail, db)
  | some t =>
    match ast.whereClause with
    | none => (.ok t.rows.length, setTable db (strLower ast.table) { t with rows := [] })
    | some w =>
      match deleteScan t w t.rows with
      | none => (.crash, db)
      | some (keep, n) => (.ok n, setTable db (strLower ast.table) { t with rows := keep })

/-- The column-name extraction loop of `_execute_create`: each name node
must be an identifier. -/
def resolveCreateCols : List (Expr × SqlType) → Option (List ColumnDef)
  | [] => some []
  | (.ident n, ty) :: rest => (resolveCreateCols rest).map (⟨n, ty⟩ :: ·)
  | _ :: _ => none

/-- `Database._execute_create`. -/
def executeCreate (ast : CreateAst) (db : Database) : Bool × Database :=
  match resolveCreateCols ast.columns with
  | none => (false, db)
  | some cols => createTable db ast.table cols ast.title

/-- `Database._execute_drop`. -/
def executeDrop (ast : DropAst) (db : Database) : Bool × Database :=
  dropTable db ast.table

/-- The per-column name extraction in `_execute_select`: identifiers name
themselves, a dot expression contributes its right identifier's name
(anything else is an unsupported reference or a `KeyError`). -/
def selectColName : Expr → Option String
  | .ident n => some n
  | .bin _ .dot (.ident n) => some n
  | _ => none

/-- The projection-resolution loop of `_execute_select` (non-`*` branch). -/
def resolveSelectCols (t : Table) : List Expr → Option (List Nat × List String)
  | [] => some ([], [])
  | c :: rest =>
    match selectColName c with
    | none => none
    | some n =>
      match getColumnIndex t.columns n with
      | none => none
      | some i =>
        (resolveSelectCols t rest).map (fun p => (i :: p.1, n :: p.2))

/-- The filter-and-project row loop of `_execute_select`; `none` models an
exception during WHERE evaluation aborting the statement. -/
def selectScan (t : Table) (w : Option Cond) (idxs : List Nat) :
    List (List Value) → Option (List (List Value))
  | [] => some []
  | row :: rest =>
    match rowQualifies w t row with
    | none => none
    | some true => (selectScan t w idxs rest).map ((idxs.map (row.getD · .null)) :: ·)
    | some false => selectScan t w idxs rest

/-- `Database._execute_select`.  All failure modes (missing table list,
unknown table, unsupported or unknown column, a non-identifier first column
node — whose `data['name']` access raises — and an exception in WHERE
evaluation) collapse to `none`; the catalog is never modified. -/
def executeSelect (ast : SelectAst) (db : Database) :
    Option (List String × List (List Value)) :=
  match ast.tables with
  | [] => none
  | tname :: _ =>
    match getTable db tname with
    | none => none
    | some t =>
      match ast.columns with
      | [] => none
      | c0 :: _ =>
        match c0 with
        | .ident n0 =>
          if n0 == "*" then
            (selectScan t ast.whereClause (List.range t.columns.length) t.rows).map
              (fun rows => (t.columns.map (·.name), rows))
          else
            match resolveSelectCols t ast.columns with
            | none => none
            | some p => (selectScan t ast.whereClause p.1 t.rows).map (fun rows => (p.2, rows))
        | _ => none

/-- The five catalog-mutating statements (the claims' operation alphabet). -/
inductive Stmt
  | create (ast : CreateAst)
  | drop (ast : DropAst)
  | insert (ast : InsertAst)
  | update (ast : UpdateAst)
  | delete (ast : DeleteAst)
deriving DecidableEq

/-- Post-statement catalog of one statement execution. -/
def execStmt (s : Stmt) (db : Database) : Database :=
  match s with
  | .create ast => (executeCreate ast db).2
  | .drop ast => (executeDrop ast db).2
  | .insert ast => (executeInsert ast db).2
  | .update ast => (executeUpdate ast db).2
  | .delete ast => (executeDelete ast db).2

/-- Running a statement sequence from a catalog. -/
def runStmts (ops : List Stmt) (db : Database) : Database :=
  ops.foldl (fun d s => execStmt s d) db

/-! ### Fixtures: concrete tables, catalogs and statements used by the
counterexamples and witnesses below. -/

/-- A one-column table `t(id INT)` holding the single row `[5]`. -/
def tIdInt : Table :=
  { name := "t", title := "t", columns := [⟨"id", .int⟩], rows := [[.vint 5]] }

/-- A catalog holding only `tIdInt`. -/
def dbIdInt : Database := ⟨[("t", tIdInt)]⟩

/-- `SELECT id FROM t WHERE id = 5/0;`. -/
def selDivZero : SelectAst :=
  { tables := ["t"], columns := [.ident "id"],
    whereClause := some (.cmp (.ident "id") .eq
      (.bin (.lit (.vint 5)) .divide (.lit (.vint 0)))) }

/-- A one-column table `t(name TEXT)` holding the single row `['Alice']`. -/
def tNameText : Table :=
  { name := "t", title := "t", columns := [⟨"name", .text⟩], rows := [[.vstr "Alice"]] }

/-- A catalog holding only `tNameText`. -/
def dbNameText : Database := ⟨[("t", tNameText)]⟩

/-- `SELECT name FROM t WHERE name = 5;`. -/
def selNameEq5 : SelectAst :=
  { tables := ["t"], columns := [.ident "name"],
    whereClause := some (.cmp (.ident "name") .eq (.lit (.vint 5))) }

/-- A one-column table `t(x INT)` holding rows `[1]` and `[2]`. -/
def tXInt : Table :=
  { name := "t", title := "t", columns := [⟨"x", .int⟩], rows := [[.vint 1], [.vint 2]] }

/-- A catalog holding only `tXInt`. -/
def dbXInt : Database := ⟨[("t", tXInt)]⟩

/-- `UPDATE t SET x = x + 1;`. -/
def updXPlus1 : UpdateAst :=
  { table := "t",
    setClauses := [(.ident "x", .bin (.ident "x") .plus (.lit (.vint 1)))],
    whereClause := none }

/-! ### Claim C9 -/

/-- Claim C9: the row-level type check accepts NULL for any column;
otherwise it accepts the value iff its runtime category matches the
declared type, with a FLOAT column accepting both integer and floating
values, an INT column only integers, and TEXT and DATE columns only
strings. -/
theorem validateType_characterisation (v : Value) (ty : SqlType) :
    validateType v ty = true ↔
      (v = Value.null ∨
        match ty with
        | .int => v.isInt = true
        | .float => v.isInt = true ∨ v.isFloat = true
        | .text => v.isStr = true
        | .date => v.isStr = true) := by
  cases v <;> cases ty <;>
    simp [validateType, Value.isInt, Value.isFloat, Value.isStr]

/-! ### Claim C10 -/

/-- Replacing a bare identifier by a string literal of its own name. -/
def substIdentLit : Expr → Expr
  | .ident n => .lit (.vstr n)
  | e => e

/-- With no table/row context, `substIdentLit` does not change evaluation. -/
theorem evaluateExpression_substIdentLit (e : Expr) :
    evaluateExpression none none (substIdentLit e) = evaluateExpression none none e := by
  cases e <;> rfl

/-- Claim C10: INSERT evaluates its value expressions with no table/row
context, so a bare identifier in the VALUES list evaluates to its own name
as a string (never an unknown-column error), and the whole insert behaves
exactly as if that identifier had been written as a string literal — the
name string then faces the ordinary column type check. -/
theorem insert_ident_is_name_string :
    (∀ n, evaluateExpression none none (.ident n) = .vstr n) ∧
    (∀ (ast : InsertAst) (db : Database),
      executeInsert { ast with values := ast.values.map substIdentLit } db
        = executeInsert ast db) := by
  refine ⟨fun n => rfl, fun ast db => ?_⟩
  have h : (ast.values.map substIdentLit).map (evaluateExpression none none)
      = ast.values.map (evaluateExpression none none) := by
    rw [List.map_map]
    exact List.map_congr_left fun a _ => evaluateExpression_substIdentLit a
  simp only [executeInsert, h]

/-! ### Claim C1 -/

/-- Claim C1 counterexample: `SELECT id FROM t WHERE id = 5/0;` against the
non-empty table `t(id INT)` does NOT fail — it succeeds, returning the
column list and zero rows (the division yields `None`, the comparison then
fails the type check and evaluates to false for the row). -/
theorem selDivZero_succeeds :
    executeSelect selDivZero dbIdInt = some (["id"], []) ∧
    executeSelect selDivZero dbIdInt ≠ none := by
  exact ⟨rfl, by decide⟩

/-- Claim C1 (amended): a division whose two operands are numeric and whose
right operand equals zero evaluates to `None` (`Value.null`) — a printed
runtime diagnostic, not an abort of the containing statement. -/
theorem division_by_zero_yields_null (table : Option Table) (row : Option (List Value))
    (l r : Expr)
    (hl : (evaluateExpression table row l).isNumeric = true)
    (hr : (evaluateExpression table row r).isNumeric = true)
    (h0 : isZeroNum (evaluateExpression table row r) = true) :
    evaluateExpression table row (.bin l .divide r) = Value.null := by
  simp [evaluateExpression, hl, hr, h0]

/-- Witness for the amended C1 theorem at `5/0`. -/
theorem division_by_zero_yields_null_witness :
    (evaluateExpression none none (.lit (.vint 5))).isNumeric = true ∧
    isZeroNum (evaluateExpression none none (.lit (.vint 0))) = true ∧
    evaluateExpression none none (.bin (.lit (.vint 5)) .divide (.lit (.vint 0))) = Value.null :=
  ⟨rfl, rfl, division_by_zero_yields_null none none _ _ rfl rfl rfl⟩

/-! ### Claim C2 -/

/-- Claim C2 counterexample: `SELECT name FROM t WHERE name = 5;` against
a TEXT column does NOT fail the statement — it succeeds, returning zero
rows (the condition evaluates to false for the TEXT row). -/
theorem selNameEq5_succeeds :
    executeSelect selNameEq5 dbNameText = some (["name"], []) ∧
    executeSelect selNameEq5 dbNameText ≠ none := by
  exact ⟨rfl, by decide⟩

/-- Claim C2 (amended): a comparison whose operands have different runtime
types and are not both numeric makes the condition evaluate to boolean
`false` (after a printed type-mismatch diagnostic); the containing
statement proceeds and succeeds, treating the condition as false for that
row. -/
theorem cmp_type_mismatch_is_false (t : Table) (row : List Value)
    (l : Expr) (op : CmpOp) (r : Expr)
    (hdiff : sameCtor (evaluateExpression (some t) (some row) l)
        (evaluateExpression (some t) (some row) r) = false)
    (hnum : ((evaluateExpression (some t) (some row) l).isNumeric &&
        (evaluateExpression (some t) (some row) r).isNumeric) = false) :
    evaluateCondition t row (.cmp l op r) = some (.bool false) := by
  simp [evaluateCondition, hdiff, hnum]

/-- Witness for the amended C2 theorem: the TEXT cell `'Alice'` compared
with the INT literal `5`. -/
theorem cmp_type_mismatch_is_false_witness :
    sameCtor (evaluateExpression (some tNameText) (some [.vstr "Alice"]) (.ident "name"))
        (evaluateExpression (some tNameText) (some [.vstr "Alice"]) (.lit (.vint 5))) = false ∧
    evaluateCondition tNameText [.vstr "Alice"]
        (.cmp (.ident "name") .eq (.lit (.vint 5))) = some (.bool false) :=
  ⟨rfl, cmp_type_mismatch_is_false tNameText [.vstr "Alice"] _ _ _ rfl rfl⟩

/-! ### Claim C3 -/

/-- Replacing a SET clause's value expression by a literal holding its
statement-scope (no table, no row) evaluation. -/
def litOfStmtScope (p : Expr × Expr) : Expr × Expr :=
  (p.1, .lit (evaluateExpression none none p.2))

/-- SET-clause resolution is blind to `litOfStmtScope`: the interpreter
already evaluates every SET value exactly once, at statement scope. -/
theorem resolveSets_litOfStmtScope (t : Table) (cls : List (Expr × Expr)) :
    resolveSets t (cls.map litOfStmtScope) = resolveSets t cls := by
  induction cls with
  | nil => rfl
  | cons p rest ih =>
    obtain ⟨lhs, rhs⟩ := p
    cases lhs with
    | ident n =>
      cases h : getColumnIndex t.columns n <;>
        simp [resolveSets, litOfStmtScope, h, ih, evaluateExpression]
    | lit v => rfl
    | bin l op r => rfl

/-- Claim C3 counterexample: `UPDATE t SET x = x + 1;` on `t(x INT)` with
rows `[1]` and `[2]` does NOT increment per row — the SET expression is
evaluated once with no row context (`x` becomes the string `"x"`, the
arithmetic fails to `None`), so both rows are overwritten with NULL and
the statement reports 2 rows updated. -/
theorem updXPlus1_sets_null :
    executeUpdate updXPlus1 dbXInt
      = (.ok 2, ⟨[("t", { tXInt with rows := [[.null], [.null]] })]⟩) ∧
    (executeUpdate updXPlus1 dbXInt).2
      ≠ ⟨[("t", { tXInt with rows := [[.vint 2], [.vint 3]] })]⟩ := by
  exact ⟨rfl, by decide⟩

/-- Claim C3 (amended): every SET new-value expression is evaluated exactly
once, at statement scope, with no table/row context — also when it mentions
column names (which then evaluate to their own name strings).  Replacing
each SET expression by a literal holding its statement-scope value leaves
the whole UPDATE unchanged. -/
theorem update_set_values_statement_scoped (ast : UpdateAst) (db : Database) :
    executeUpdate { ast with setClauses := ast.setClauses.map litOfStmtScope } db
      = executeUpdate ast db := by
  simp only [executeUpdate, resolveSets_litOfStmtScope]

/-! ### Claim C6 -/

/-- A two-column table `t(id INT, name TEXT)` with no rows. -/
def tTwoCols : Table :=
  { name := "t", title := "t", columns := [⟨"id", .int⟩, ⟨"name", .text⟩], rows := [] }

/-- A catalog holding only `tTwoCols`. -/
def dbTwoCols : Database := ⟨[("t", tTwoCols)]⟩

/-- `INSERT INTO t VALUES (1);` (positional, one value). -/
def insOneVal : InsertAst := { table := "t", columns := [], values := [.lit (.vint 1)] }

/-- Every failing insert leaves the catalog untouched. -/
theorem executeInsert_fail_unchanged (ast : InsertAst) (db : Database) :
    (executeInsert ast db).1 = none ∨ (executeInsert ast db).2 = db := by
  unfold executeInsert
  repeat' first
    | (left; rfl)
    | (right; rfl)
    | split
    | dsimp only

/-- Claim C6: a positional INSERT whose value count differs from the
table's column count fails with the column-count-mismatch error, and on
every INSERT failure whatsoever the table's row sequence (indeed the whole
catalog) is unchanged — no partial row is ever appended. -/
theorem insert_count_mismatch_no_partial_row (ast : InsertAst) (db : Database) :
    (∀ t, getTable db ast.table = some t → ast.columns = [] →
      ast.values.length ≠ t.columns.length →
      executeInsert ast db = (some .columnCountMismatch, db)) ∧
    (∀ e, (executeInsert ast db).1 = some e → (executeInsert ast db).2 = db) := by
  constructor
  · intro t ht hc hlen
    simp only [executeInsert, ht, hc]
    simp [List.length_map, hlen]
  · intro e he
    rcases executeInsert_fail_unchanged ast db with h | h
    · rw [he] at h; cases h
    · exact h

/-- Witness for C6: inserting a single value into the two-column table
`t(id INT, name TEXT)` fails with the count mismatch and leaves the
catalog unchanged. -/
theorem insert_count_mismatch_no_partial_row_witness :
    executeInsert insOneVal dbTwoCols = (some .columnCountMismatch, dbTwoCols) :=
  (insert_count_mismatch_no_partial_row insOneVal dbTwoCols).1 tTwoCols rfl rfl (by decide)

/-! ### Claim C5 -/

/-- `INSERT INTO t (id, id) VALUES ('x', 2);` — a duplicate column list. -/
def insDupId : InsertAst :=
  { table := "t", columns := [.ident "id", .ident "id"],
    values := [.lit (.vstr "x"), .lit (.vint 2)] }

/-- A resolved column index is in range. -/
theorem getColumnIndex_lt (cols : List ColumnDef) (name : String) (i : Nat)
    (h : getColumnIndex cols name = some i) : i < cols.length := by
  induction cols generalizing i with
  | nil => cases h
  | cons c rest ih =>
    unfold getColumnIndex at h
    split at h
    · cases h; simp
    · rcases Option.map_eq_some'.mp h with ⟨j, hj, rfl⟩
      simpa using Nat.succ_lt_succ (ih j hj)

/-- Indices produced by the INSERT column-resolution loop are in range. -/
theorem resolveCols_bounds (t : Table) (cs : List Expr) (idxs : List Nat)
    (h : resolveCols t cs = .ok idxs) : ∀ i ∈ idxs, i < t.columns.length := by
  induction cs generalizing idxs with
  | nil =>
    unfold resolveCols at h
    cases h
    intro i hi; cases hi
  | cons c rest ih =>
    cases c with
    | ident n =>
      simp only [resolveCols] at h
      cases hg : getColumnIndex t.columns n with
      | none => rw [hg] at h; cases h
      | some i0 =>
        rw [hg] at h
        cases hr : resolveCols t rest with
        | error e => rw [hr] at h; cases h
        | ok tl =>
          rw [hr] at h
          cases h
          intro i hi
          rcases List.mem_cons.mp hi with rfl | hmem
          · exact getColumnIndex_lt _ _ _ hg
          · exact ih tl hr i hmem
    | lit v => simp only [resolveCols] at h; cases h
    | bin l op r => simp only [resolveCols] at h; cases h

/-- Folding `List.set` preserves length. -/
theorem foldl_set_length (ps : List (Nat × Value)) (acc : List Value) :
    (ps.foldl (fun r p => r.set p.1 p.2) acc).length = acc.length := by
  induction ps generalizing acc with
  | nil => rfl
  | cons p rest ih => rw [List.foldl_cons, ih, List.length_set]

/-- A fold of `List.set` leaves untouched positions unchanged. -/
theorem foldl_set_getD_no_hit (ps : List (Nat × Value)) (acc : List Value) (j : Nat)
    (h : ∀ p ∈ ps, p.1 ≠ j) :
    (ps.foldl (fun r p => r.set p.1 p.2) acc).getD j .null = acc.getD j .null := by
  induction ps generalizing acc with
  | nil => rfl
  | cons p rest ih =>
    rw [List.foldl_cons, ih _ (fun q hq => h q (List.mem_cons_of_mem _ hq))]
    rw [List.getD_eq_getElem?_getD, List.getD_eq_getElem?_getD,
      List.getElem?_set_ne (h p (List.mem_cons_self p rest))]

/-- With pairwise-distinct target positions, a fold of `List.set` places
each pair's value at its position. -/
theorem foldl_set_getD_hit (ps : List (Nat × Value)) (acc : List Value)
    (hnd : (ps.map Prod.fst).Nodup) (hb : ∀ p ∈ ps, p.1 < acc.length) :
    ∀ p ∈ ps, (ps.foldl (fun r q => r.set q.1 q.2) acc).getD p.1 .null = p.2 := by
  induction ps generalizing acc with
  | nil => intro p hp; cases hp
  | cons q rest ih =>
    rw [List.map_cons, List.nodup_cons] at hnd
    have hnd2 := hnd
    intro p hp
    rw [List.foldl_cons]
    rcases List.mem_cons.mp hp with rfl | hmem
    · have hq1 : ∀ r ∈ rest, r.1 ≠ p.1 := by
        intro r hr heq
        exact hnd2.1 (heq ▸ List.mem_map_of_mem Prod.fst hr)
      rw [foldl_set_getD_no_hit _ _ _ hq1]
      have hlt : p.1 < acc.length := hb p hp
      rw [List.getD_eq_getElem?_getD, List.getElem?_set_eq_of_lt _ hlt]
      rfl
    · exact ih (acc.set q.1 q.2) hnd2.2
        (fun r hr => by
          simpa [List.length_set] using hb r (List.mem_cons_of_mem _ hr))
        p hmem

/-- An unmentioned position of a scattered row is NULL. -/
theorem scatterRow_getD_no_hit (n : Nat) (idxs : List Nat) (vals : List Value) (j : Nat)
    (hj : j < n) (hmem : j ∉ idxs) : (scatterRow n idxs vals).getD j .null = .null := by
  unfold scatterRow
  rw [foldl_set_getD_no_hit]
  · rw [List.getD_eq_getElem?_getD, List.getElem?_replicate]
    simp [hj]
  · intro p hp heq
    exact hmem (heq ▸ (List.of_mem_zip hp).1)

/-- With distinct in-range indices, a scattered row holds each listed
value at its index. -/
theorem scatterRow_getD_hit (n : Nat) (idxs : List Nat) (vals : List Value) (k : Nat)
    (hnd : idxs.Nodup) (hb : ∀ i ∈ idxs, i < n) (hlen : idxs.length = vals.length)
    (hk : k < idxs.length) :
    (scatterRow n idxs vals).getD (idxs.getD k 0) .null = vals.getD k .null := by
  unfold scatterRow
  have hkv : k < vals.length := hlen ▸ hk
  have hkz : k < (idxs.zip vals).length := by
    simp only [List.length_zip]
    omega
  have hpair : (idxs.zip vals).get ⟨k, hkz⟩ = (idxs.get ⟨k, hk⟩, vals.get ⟨k, hkv⟩) :=
    List.get_zip
  have hfst : (idxs.zip vals).map Prod.fst = idxs :=
    List.map_fst_zip idxs vals (le_of_eq hlen)
  have hhit := foldl_set_getD_hit (idxs.zip vals) (List.replicate n Value.null)
    (by rw [hfst]; exact hnd)
    (fun p hp => by
      rw [List.length_replicate]
      exact hb p.1 ((List.of_mem_zip hp).1))
    ((idxs.zip vals).get ⟨k, hkz⟩) (List.get_mem _ _ _)
  rw [hpair] at hhit
  have h1 : idxs.getD k 0 = idxs.get ⟨k, hk⟩ :=
    (List.getD_eq_getElem idxs 0 hk).trans rfl
  have h2 : vals.getD k Value.null = vals.get ⟨k, hkv⟩ :=
    (List.getD_eq_getElem vals Value.null hkv).trans rfl
  rw [h1, h2]
  exact hhit

/-- Claim C5 counterexample: `INSERT INTO t (id, id) VALUES ('x', 2);`
into `t(id INT, name TEXT)` succeeds and appends `[2, NULL]` — the later
listed occurrence overwrote the earlier one, so the listed value `'x'` is
NOT at its named column's index (the claim's row description fails). -/
theorem insDupId_overwrites :
    executeInsert insDupId dbTwoCols
      = (none, ⟨[("t", { tTwoCols with rows := [[.vint 2, .null]] })]⟩) ∧
    (scatterRow tTwoCols.columns.length [0, 0]
        (insDupId.values.map (evaluateExpression none none))).getD 0 .null
      ≠ .vstr "x" := by
  exact ⟨rfl, by decide⟩

/-- Claim C5 (amended): an INSERT with a (non-empty) explicit column list
into an existing table succeeds only if every named column resolves and the
resolved index list is as long as the value list; on success the appended
row is the all-NULL row overwritten in list order with each value at its
resolved index — so with duplicate listed columns the last occurrence wins,
while for distinct listed columns each listed value sits at its named
column's storage index and every unmentioned column holds NULL. -/
theorem insert_explicit_columns_scatter (ast : InsertAst) (db : Database) (t : Table)
    (ht : getTable db ast.table = some t)
    (hcols : ast.columns ≠ [])
    (hsucc : (executeInsert ast db).1 = none) :
    ∃ idxs, resolveCols t ast.columns = .ok idxs ∧
      idxs.length = ast.values.length ∧
      (executeInsert ast db).2 = setTable db (strLower ast.table)
        { t with rows := t.rows ++
            [scatterRow t.columns.length idxs (ast.values.map (evaluateExpression none none))] } ∧
      (idxs.Nodup →
        (∀ k, k < idxs.length →
          (scatterRow t.columns.length idxs
              (ast.values.map (evaluateExpression none none))).getD (idxs.getD k 0) .null
            = (ast.values.map (evaluateExpression none none)).getD k .null) ∧
        (∀ j, j < t.columns.length → j ∉ idxs →
          (scatterRow t.columns.length idxs
              (ast.values.map (evaluateExpression none none))).getD j .null = .null)) := by
  have hne : ast.columns.isEmpty = false := by
    cases hA : ast.columns with
    | nil => exact absurd hA hcols
    | cons a l => rfl
  simp only [executeInsert, ht, hne, Bool.false_eq_true, if_false] at hsucc ⊢
  cases hres : resolveCols t ast.columns with
  | error e =>
    rw [hres] at hsucc
    simp at hsucc
  | ok idxs =>
    rw [hres] at hsucc
    dsimp only at hsucc ⊢
    by_cases hlen : idxs.length = (ast.values.map (evaluateExpression none none)).length
    · rw [if_neg (by omega)] at hsucc ⊢
      cases hadd : addRow t (scatterRow t.columns.length idxs
          (ast.values.map (evaluateExpression none none))) with
      | error e => rw [hadd] at hsucc; cases hsucc
      | ok t2 =>
        have ht2 : t2 = { t with rows := t.rows ++
            [scatterRow t.columns.length idxs
              (ast.values.map (evaluateExpression none none))] } := by
          unfold addRow at hadd
          split at hadd
          · cases hadd
          · split at hadd
            · cases hadd; rfl
            · cases hadd
        refine ⟨idxs, rfl, by simpa using hlen, ?_, ?_⟩
        · dsimp only
          rw [ht2]
        · intro hnd
          refine ⟨fun k hk => ?_, fun j hj hjmem => ?_⟩
          · exact scatterRow_getD_hit t.columns.length idxs _ k hnd
              (resolveCols_bounds t ast.columns idxs hres) hlen hk
          · exact scatterRow_getD_no_hit t.columns.length idxs _ j hj hjmem
    · rw [if_pos (by omega)] at hsucc
      cases hsucc

/-- Witness for the amended C5 theorem: `INSERT INTO t (name) VALUES ('Bob');`
into empty `t(id INT, name TEXT)` — the single listed column resolves to
index 1, the appended row is `[NULL, 'Bob']`. -/
theorem insert_explicit_columns_scatter_witness :
    ∃ idxs, resolveCols tTwoCols [Expr.ident "name"] = .ok idxs ∧
      idxs.length = [Expr.lit (Value.vstr "Bob")].length ∧
      (executeInsert ⟨"t", [.ident "name"], [.lit (.vstr "Bob")]⟩ dbTwoCols).2
        = setTable dbTwoCols (strLower "t")
          { tTwoCols with rows := tTwoCols.rows ++
              [scatterRow tTwoCols.columns.length idxs
                ([Expr.lit (Value.vstr "Bob")].map (evaluateExpression none none))] } ∧
      (idxs.Nodup →
        (∀ k, k < idxs.length →
          (scatterRow tTwoCols.columns.length idxs
              ([Expr.lit (Value.vstr "Bob")].map (evaluateExpression none none))).getD
              (idxs.getD k 0) .null
            = ([Expr.lit (Value.vstr "Bob")].map (evaluateExpression none none)).getD k .null) ∧
        (∀ j, j < tTwoCols.columns.length → j ∉ idxs →
          (scatterRow tTwoCols.columns.length idxs
              ([Expr.lit (Value.vstr "Bob")].map (evaluateExpression none none))).getD
              j .null = .null)) :=
  insert_explicit_columns_scatter ⟨"t", [.ident "name"], [.lit (.vstr "Bob")]⟩
    dbTwoCols tTwoCols rfl (by decide) rfl

/-! ### Claim C7 -/

/-- The claim's keep-predicate: a row is kept when there is no WHERE
clause, or the WHERE clause evaluates to the boolean `true`. -/
def keptBy (w : Option Cond) (t : Table) (row : List Value) : Bool :=
  match w with
  | none => true
  | some c =>
    match evaluateCondition t row c with
    | some (.bool true) => true
    | _ => false

/-- Any non-crashing condition evaluation yields a boolean or the `None`
of an operator-less condition node. -/
theorem evaluateCondition_shape (t : Table) (row : List Value) (c : Cond) (cv : CondVal)
    (h : evaluateCondition t row c = some cv) :
    (∃ b, cv = .bool b) ∨ cv = .val Value.null := by
  cases c with
  | and l r =>
    unfold evaluateCondition at h
    split at h
    · cases h; exact Or.inl ⟨_, rfl⟩
    · cases h; exact Or.inl ⟨_, rfl⟩
    · cases h
  | or l r =>
    unfold evaluateCondition at h
    split at h
    · cases h; exact Or.inl ⟨_, rfl⟩
    · cases h; exact Or.inl ⟨_, rfl⟩
    · cases h
  | not c1 =>
    unfold evaluateCondition at h
    split at h
    · cases h; exact Or.inl ⟨_, rfl⟩
    · cases h; exact Or.inl ⟨_, rfl⟩
    · cases h
  | cmp l op r =>
    unfold evaluateCondition at h
    dsimp only at h
    split at h
    · rcases Option.map_eq_some'.mp h with ⟨b, hb, rfl⟩
      exact Or.inl ⟨b, rfl⟩
    · cases h; exact Or.inl ⟨_, rfl⟩
  | noOp l =>
    cases h
    exact Or.inr rfl

/-- Under the interpreter's truthiness test, a row qualifies exactly when
the claim's keep-predicate holds. -/
theorem keptBy_of_rowQualifies (w : Option Cond) (t : Table) (row : List Value) (b : Bool)
    (h : rowQualifies w t row = some b) : keptBy w t row = b := by
  cases w with
  | none => cases h; rfl
  | some c =>
    unfold rowQualifies at h
    dsimp only at h
    rcases Option.map_eq_some'.mp h with ⟨cv, hcv, rfl⟩
    unfold keptBy
    dsimp only
    rw [hcv]
    rcases evaluateCondition_shape t row c cv hcv with ⟨b1, rfl⟩ | rfl
    · cases b1 <;> rfl
    · rfl

/-- A successful SELECT row scan filters by the claim's keep-predicate and
projects, preserving storage order. -/
theorem selectScan_eq_filter (t : Table) (w : Option Cond) (idxs : List Nat)
    (rows : List (List Value)) (out : List (List Value))
    (h : selectScan t w idxs rows = some out) :
    out = (rows.filter (keptBy w t)).map (fun r => idxs.map (r.getD · .null)) := by
  induction rows generalizing out with
  | nil => cases h; rfl
  | cons row rest ih =>
    unfold selectScan at h
    cases hq : rowQualifies w t row with
    | none => rw [hq] at h; cases h
    | some b =>
      rw [hq] at h
      have hk := keptBy_of_rowQualifies w t row b hq
      cases b with
      | true =>
        rcases Option.map_eq_some'.mp h with ⟨out1, hout1, rfl⟩
        rw [ih out1 hout1, List.filter_cons, hk]
        simp
      | false =>
        rw [List.filter_cons, hk]
        simpa using ih out h

/-- Claim C7: for a SELECT on an existing table that returns rows, the
returned rows are exactly the storage-order scan filtered by "no WHERE
clause, or the WHERE clause evaluates to boolean true", projected at fixed
column indices (so insertion order is preserved); and a bare `*` projection
expands to all of the table's columns in declared order. -/
theorem select_keeps_bool_true_rows (ast : SelectAst) (db : Database) (tname : String)
    (t : Table) (names : List String) (rows : List (List Value))
    (hhd : ast.tables.head? = some tname)
    (ht : getTable db tname = some t)
    (hsel : executeSelect ast db = some (names, rows)) :
    (∃ idxs : List Nat, rows = (t.rows.filter (keptBy ast.whereClause t)).map
        (fun r => idxs.map (r.getD · .null))) ∧
    (ast.columns = [.ident "*"] →
      names = t.columns.map (·.name) ∧
      rows = (t.rows.filter (keptBy ast.whereClause t)).map
        (fun r => (List.range t.columns.length).map (r.getD · .null))) := by
  cases hAT : ast.tables with
  | nil => rw [hAT] at hhd; cases hhd
  | cons t0 ts =>
    rw [hAT] at hhd
    have ht0 : t0 = tname := by
      cases hhd; rfl
    subst ht0
    rw [executeSelect, hAT] at hsel
    dsimp only at hsel
    rw [ht] at hsel
    dsimp only at hsel
    cases hAC : ast.columns with
    | nil => rw [hAC] at hsel; cases hsel
    | cons c0 cs =>
      rw [hAC] at hsel
      cases c0 with
      | ident n0 =>
        dsimp only at hsel
        by_cases hstar : (n0 == "*") = true
        · rw [if_pos hstar] at hsel
          rcases Option.map_eq_some'.mp hsel with ⟨out, hout, heq⟩
          cases heq
          refine ⟨⟨List.range t.columns.length,
            selectScan_eq_filter t ast.whereClause _ t.rows _ hout⟩, fun _ => ?_⟩
          exact ⟨rfl, selectScan_eq_filter t ast.whereClause _ t.rows _ hout⟩
        · rw [if_neg hstar] at hsel
          cases hres : resolveSelectCols t (Expr.ident n0 :: cs) with
          | none => rw [hres] at hsel; cases hsel
          | some p =>
            rw [hres] at hsel
            rcases Option.map_eq_some'.mp hsel with ⟨out, hout, heq⟩
            cases heq
            refine ⟨⟨p.1, selectScan_eq_filter t ast.whereClause _ t.rows _ hout⟩,
              fun hc => ?_⟩
            have h3 : n0 = "*" := by
              injection hc with h1 h2
              injection h1
            exact absurd (by rw [h3]; rfl) hstar
      | lit v => dsimp only at hsel; cases hsel
      | bin l op r => dsimp only at hsel; cases hsel

/-- `t(id INT, name TEXT)` holding rows `[1,'Alice']` and `[2,NULL]`. -/
def tTwoRows : Table :=
  { name := "t", title := "t", columns := [⟨"id", .int⟩, ⟨"name", .text⟩],
    rows := [[.vint 1, .vstr "Alice"], [.vint 2, .null]] }

/-- A catalog holding only `tTwoRows`. -/
def dbTwoRows : Database := ⟨[("t", tTwoRows)]⟩

/-- `SELECT * FROM t;`. -/
def selStar : SelectAst := { tables := ["t"], columns := [.ident "*"], whereClause := none }

/-- Witness for C7 at `SELECT * FROM t;` over the two-row table. -/
theorem select_keeps_bool_true_rows_witness :
    (∃ idxs : List Nat, [[Value.vint 1, Value.vstr "Alice"], [Value.vint 2, Value.null]]
        = (tTwoRows.rows.filter (keptBy none tTwoRows)).map
            (fun r => idxs.map (r.getD · .null))) ∧
    (selStar.columns = [.ident "*"] →
      ["id", "name"] = tTwoRows.columns.map (·.name) ∧
      [[Value.vint 1, Value.vstr "Alice"], [Value.vint 2, Value.null]]
        = (tTwoRows.rows.filter (keptBy none tTwoRows)).map
            (fun r => (List.range tTwoRows.columns.length).map (r.getD · .null))) :=
  select_keeps_bool_true_rows selStar dbTwoRows "t" tTwoRows ["id", "name"]
    [[.vint 1, .vstr "Alice"], [.vint 2, .null]] rfl rfl rfl

/-! ### Claim C4 -/

/-- `t(a INT, b INT)` holding rows `[1,1]` and `[2,2]`. -/
def tAB : Table :=
  { name := "t", title := "t", columns := [⟨"a", .int⟩, ⟨"b", .int⟩],
    rows := [[.vint 1, .vint 1], [.vint 2, .vint 2]] }

/-- A catalog holding only `tAB`. -/
def dbAB : Database := ⟨[("t", tAB)]⟩

/-- `UPDATE t SET a = 5, b = 'x';` — the second SET value fails the INT
type check. -/
def updBadSecondSet : UpdateAst :=
  { table := "t",
    setClauses := [(.ident "a", .lit (.vint 5)), (.ident "b", .lit (.vstr "x"))],
    whereClause := none }

/-- If some SET clause carries a value that fails its column's type check,
applying the clauses to any row aborts (the check does not depend on the
row's contents). -/
theorem applySets_fst_false (t : Table) (cls : List (Nat × Value)) (row : List Value)
    (h : ∃ p ∈ cls, validateType p.2 ((t.columns.getD p.1 ⟨"", .int⟩).type) = false) :
    (applySets t cls row).1 = false := by
  induction cls generalizing row with
  | nil => rcases h with ⟨p, hp, _⟩; cases hp
  | cons q rest ih =>
    obtain ⟨i, v⟩ := q
    rcases h with ⟨p, hp, hval⟩
    unfold applySets
    by_cases hq : validateType v ((t.columns.getD i ⟨"", .int⟩).type) = true
    · rw [if_pos hq]
      apply ih
      rcases List.mem_cons.mp hp with rfl | hmem
      · rw [hq] at hval; cases hval
      · exact ⟨p, hmem, hval⟩
    · rw [if_neg hq]

/-- When rows before `q` do not qualify, `q` qualifies and its SET
application aborts, the scan stops at `q`: the statement fails, `q` keeps
the partial mutation, and all other rows keep their prior contents. -/
theorem updateScan_failed (t : Table) (w : Option Cond) (cls : List (Nat × Value))
    (pre : List (List Value)) (q : List Value) (rest : List (List Value))
    (hpre : ∀ r ∈ pre, rowQualifies w t r = some false)
    (hq : rowQualifies w t q = some true)
    (hfail : (applySets t cls q).1 = false) :
    updateScan t w cls (pre ++ q :: rest)
      = .failed (pre ++ (applySets t cls q).2 :: rest) := by
  induction pre with
  | nil =>
    simp only [List.nil_append]
    unfold updateScan
    rw [hq]
    cases hap : applySets t cls q with
    | mk b row2 =>
      rw [hap] at hfail
      dsimp only at hfail
      subst hfail
      rfl
  | cons r pre1 ih =>
    simp only [List.cons_append]
    unfold updateScan
    rw [hpre r (List.mem_cons_self r _),
      ih (fun r1 hr1 => hpre r1 (List.mem_cons_of_mem _ hr1))]

/-- Claim C4 counterexample: `UPDATE t SET a = 5, b = 'x';` on
`t(a INT, b INT)` fails at the first row with `a` already overwritten
(`[5,1]` remains) — but the statement reports NO rows-affected count at
all (the result is a bare failure, not `ok 0` as the claim's
"count equals rows updated before the failure" would demand). -/
theorem updBadSecondSet_partial_write :
    executeUpdate updBadSecondSet dbAB
      = (.fail, ⟨[("t", { tAB with rows := [[.vint 5, .vint 1], [.vint 2, .vint 2]] })]⟩) ∧
    (executeUpdate updBadSecondSet dbAB).1 ≠ UpdRes.ok 0 := by
  exact ⟨rfl, by decide⟩

/-- Claim C4 (amended): when an UPDATE's resolved SET values contain one
failing its column's type check, the statement fails immediately at the
first qualifying row — since validation does not depend on row contents,
no earlier row is ever updated; within that row the SET targets listed
before the failing one remain mutated (a partial write); all other rows
keep their prior contents, and no rows-affected count is reported (the
result is a bare failure). -/
theorem update_fails_no_count_partial_write (ast : UpdateAst) (db : Database) (t : Table)
    (cls : List (Nat × Value)) (pre : List (List Value)) (q : List Value)
    (rest : List (List Value))
    (ht : getTable db ast.table = some t)
    (hres : resolveSets t ast.setClauses = some cls)
    (hrows : t.rows = pre ++ q :: rest)
    (hpre : ∀ r ∈ pre, rowQualifies ast.whereClause t r = some false)
    (hq : rowQualifies ast.whereClause t q = some true)
    (hbad : ∃ p ∈ cls, validateType p.2 ((t.columns.getD p.1 ⟨"", .int⟩).type) = false) :
    executeUpdate ast db = (.fail, setTable db (strLower ast.table)
      { t with rows := pre ++ (applySets t cls q).2 :: rest }) := by
  unfold executeUpdate
  rw [ht]
  dsimp only
  rw [hres]
  dsimp only
  rw [hrows, updateScan_failed t ast.whereClause cls pre q rest hpre hq
    (applySets_fst_false t cls q hbad)]

/-- Witness for the amended C4 theorem at the concrete failing UPDATE. -/
theorem update_fails_no_count_partial_write_witness :
    executeUpdate updBadSecondSet dbAB
      = (.fail, setTable dbAB (strLower "t")
          { tAB with rows := [] ++ (applySets tAB [(0, Value.vint 5), (1, Value.vstr "x")]
              [Value.vint 1, Value.vint 1]).2 :: [[Value.vint 2, Value.vint 2]] }) :=
  update_fails_no_count_partial_write updBadSecondSet dbAB tAB
    [(0, .vint 5), (1, .vstr "x")] [] [.vint 1, .vint 1] [[.vint 2, .vint 2]]
    rfl rfl rfl (fun r hr => absurd hr (List.not_mem_nil r)) rfl
    ⟨(1, .vstr "x"), by decide, rfl⟩

/-! ### Claim C8 -/

/-- Well-formedness of one row against a column layout: full length and
every cell passing its column's type check. -/
def rowOk (cols : List ColumnDef) (row : List Value) : Prop :=
  row.length = cols.length ∧
  ∀ i, i < cols.length →
    validateType (row.getD i .null) ((cols.getD i ⟨"", .int⟩).type) = true

/-- Well-formedness of a table: every stored row is well-formed. -/
def tableOk (t : Table) : Prop := ∀ row ∈ t.rows, rowOk t.columns row

/-- The internal catalog invariant: every dict key is the lower-cased
table name, keys are distinct, and every table is well-formed. -/
def dbOk (db : Database) : Prop :=
  (∀ e ∈ db.tables, e.1 = strLower e.2.name) ∧
  (db.tables.map Prod.fst).Nodup ∧
  (∀ e ∈ db.tables, tableOk e.2)

/-- A successful lookup comes from an entry stored under the lower-cased
name. -/
theorem getTable_entry (db : Database) (name : String) (t : Table)
    (h : getTable db name = some t) :
    (strLower name, t) ∈ db.tables := by
  unfold getTable at h
  rcases Option.map_eq_some'.mp h with ⟨e, he, rfl⟩
  have hmem := List.mem_of_find?_eq_some he
  have hp := List.find?_some he
  have : e.1 = strLower name := by
    exact eq_of_beq hp
  rw [← this]
  exact hmem

/-- Replacing the table stored under its own (lower-cased) name preserves
the catalog invariant, provided the new table contents are well-formed. -/
theorem setTable_dbOk (db : Database) (key : String) (t2 : Table)
    (hdb : dbOk db) (hkey : strLower t2.name = key) (ht2 : tableOk t2) :
    dbOk (setTable db key t2) := by
  obtain ⟨hkeys, hnd, htabs⟩ := hdb
  refine ⟨?_, ?_, ?_⟩
  · intro e he
    rcases List.mem_map.mp he with ⟨e0, he0, rfl⟩
    by_cases h0 : (e0.1 == key) = true
    · rw [if_pos h0]
      exact hkey.symm
    · rw [if_neg h0]
      exact hkeys e0 he0
  · have hsame : (setTable db key t2).tables.map Prod.fst = db.tables.map Prod.fst := by
      unfold setTable
      rw [List.map_map]
      apply List.map_congr_left
      intro e0 _
      by_cases h0 : (e0.1 == key) = true
      · simp only [Function.comp_apply, if_pos h0]
        exact (eq_of_beq h0).symm
      · simp only [Function.comp_apply, if_neg h0]
    rw [hsame]
    exact hnd
  · intro e he
    rcases List.mem_map.mp he with ⟨e0, he0, rfl⟩
    by_cases h0 : (e0.1 == key) = true
    · rw [if_pos h0]
      exact ht2
    · rw [if_neg h0]
      exact htabs e0 he0

/-- Setting a validated value at an in-range index preserves row
well-formedness. -/
theorem rowOk_set (cols : List ColumnDef) (row : List Value) (i : Nat) (v : Value)
    (hrow : rowOk cols row) (hi : i < cols.length)
    (hv : validateType v ((cols.getD i ⟨"", .int⟩).type) = true) :
    rowOk cols (row.set i v) := by
  obtain ⟨hlen, hcells⟩ := hrow
  refine ⟨by rw [List.length_set]; exact hlen, ?_⟩
  intro j hj
  by_cases hij : i = j
  · subst hij
    rw [List.getD_eq_getElem?_getD, List.getElem?_set_eq_of_lt _ (hlen ▸ hi)]
    exact hv
  · rw [List.getD_eq_getElem?_getD, List.getElem?_set_ne hij,
      ← List.getD_eq_getElem?_getD]
    exact hcells j hj

/-- The zip-based validation loop of `add_row` implies pointwise cell
validity. -/
theorem rowOk_of_addRow_checks (cols : List ColumnDef) (vals : List Value)
    (hlen : vals.length = cols.length)
    (hall : (vals.zip cols).all (fun p => validateType p.1 p.2.type) = true) :
    rowOk cols vals := by
  refine ⟨hlen, ?_⟩
  intro i hi
  have hiv : i < vals.length := by omega
  have hiz : i < (vals.zip cols).length := by
    simp only [List.length_zip]
    omega
  have hmem : (vals.zip cols).get ⟨i, hiz⟩ ∈ vals.zip cols := List.get_mem _ _ _
  have hp := List.all_eq_true.mp hall _ hmem
  have hpair : (vals.zip cols).get ⟨i, hiz⟩ = (vals.get ⟨i, hiv⟩, cols.get ⟨i, hi⟩) :=
    List.get_zip
  rw [hpair] at hp
  rw [List.getD_eq_getElem vals .null hiv, List.getD_eq_getElem cols _ hi]
  exact hp

/-- A successful `add_row` appends exactly the validated row. -/
theorem addRow_ok_shape (t : Table) (vals : List Value) (t2 : Table)
    (h : addRow t vals = .ok t2) :
    t2 = { t with rows := t.rows ++ [vals] } ∧ rowOk t.columns vals := by
  unfold addRow at h
  split at h
  · cases h
  · split at h
    · cases h
      exact ⟨rfl, rowOk_of_addRow_checks t.columns vals (by omega) (by assumption)⟩
    · cases h

/-- CREATE preserves the catalog invariant. -/
theorem executeCreate_dbOk (ast : CreateAst) (db : Database) (hdb : dbOk db) :
    dbOk (executeCreate ast db).2 := by
  unfold executeCreate
  cases hrc : resolveCreateCols ast.columns with
  | none => exact hdb
  | some cols =>
    dsimp only
    unfold createTable
    split
    · exact hdb
    · next hfind =>
      obtain ⟨hkeys, hnd, htabs⟩ := hdb
      have hnone : db.tables.find? (fun e => e.1 == strLower ast.table) = none := by
        cases hf : db.tables.find? (fun e => e.1 == strLower ast.table) with
        | none => rfl
        | some e => rw [hf] at hfind; exact absurd rfl hfind
      have hnotmem : strLower ast.table ∉ db.tables.map Prod.fst := by
        intro hmem
        rcases List.mem_map.mp hmem with ⟨e, he, heq⟩
        have := List.find?_eq_none.mp hnone e he
        exact this (by rw [heq]; exact beq_self_eq_true _)
      refine ⟨?_, ?_, ?_⟩
      · intro e he
        rcases List.mem_append.mp he with h1 | h1
        · exact hkeys e h1
        · rcases List.mem_singleton.mp h1 with rfl
          rfl
      · rw [List.map_append]
        simp only [List.map_cons, List.map_nil]
        rw [List.nodup_append]
        refine ⟨hnd, List.nodup_singleton _, ?_⟩
        intro a ha hb
        rcases List.mem_singleton.mp hb with rfl
        exact hnotmem ha
      · intro e he
        rcases List.mem_append.mp he with h1 | h1
        · exact htabs e h1
        · rcases List.mem_singleton.mp h1 with rfl
          exact fun row hrow => absurd hrow (List.not_mem_nil row)

/-- DROP preserves the catalog invariant. -/
theorem executeDrop_dbOk (ast : DropAst) (db : Database) (hdb : dbOk db) :
    dbOk (executeDrop ast db).2 := by
  unfold executeDrop dropTable
  split
  · obtain ⟨hkeys, hnd, htabs⟩ := hdb
    refine ⟨?_, ?_, ?_⟩
    · intro e he
      exact hkeys e (List.mem_of_mem_filter he)
    · exact List.Nodup.sublist (List.Sublist.map Prod.fst (List.filter_sublist _)) hnd
    · intro e he
      exact htabs e (List.mem_of_mem_filter he)
  · exact hdb

/-- INSERT preserves the catalog invariant. -/
theorem executeInsert_dbOk (ast : InsertAst) (db : Database) (hdb : dbOk db) :
    dbOk (executeInsert ast db).2 := by
  unfold executeInsert
  cases ht : getTable db ast.table with
  | none => exact hdb
  | some t =>
    dsimp only
    have hmem := getTable_entry db ast.table t ht
    have hkey : strLower t.name = strLower ast.table := (hdb.1 _ hmem).symm
    have htOk : tableOk t := hdb.2.2 _ hmem
    split
    · split
      · exact hdb
      · cases hadd : addRow t (ast.values.map (evaluateExpression none none)) with
        | error e => exact hdb
        | ok t2 =>
          dsimp only
          obtain ⟨ht2shape, ht2row⟩ := addRow_ok_shape t _ t2 hadd
          apply setTable_dbOk db _ t2 hdb (by rw [ht2shape]; exact hkey)
          rw [ht2shape]
          intro row hrow
          rcases List.mem_append.mp hrow with h1 | h1
          · exact htOk row h1
          · rcases List.mem_singleton.mp h1 with rfl
            exact ht2row
    · cases hres : resolveCols t ast.columns with
      | error e => exact hdb
      | ok idxs =>
        dsimp only
        split
        · exact hdb
        · cases hadd : addRow t (scatterRow t.columns.length idxs
              (ast.values.map (evaluateExpression none none))) with
          | error e => exact hdb
          | ok t2 =>
            dsimp only
            obtain ⟨ht2shape, ht2row⟩ := addRow_ok_shape t _ t2 hadd
            apply setTable_dbOk db _ t2 hdb (by rw [ht2shape]; exact hkey)
            rw [ht2shape]
            intro row hrow
            rcases List.mem_append.mp hrow with h1 | h1
            · exact htOk row h1
            · rcases List.mem_singleton.mp h1 with rfl
              exact ht2row

/-- Targets resolved by the SET loop are in range. -/
theorem resolveSets_bounds (t : Table) (scls : List (Expr × Expr))
    (cls : List (Nat × Value)) (h : resolveSets t scls = some cls) :
    ∀ p ∈ cls, p.1 < t.columns.length := by
  induction scls generalizing cls with
  | nil =>
    cases h
    intro p hp
    cases hp
  | cons sc rest ih =>
    obtain ⟨lhs, rhs⟩ := sc
    cases lhs with
    | ident n =>
      simp only [resolveSets] at h
      cases hg : getColumnIndex t.columns n with
      | none => rw [hg] at h; cases h
      | some i =>
        rw [hg] at h
        cases hr : resolveSets t rest with
        | none => rw [hr] at h; cases h
        | some tl =>
          rw [hr] at h
          cases h
          intro p hp
          rcases List.mem_cons.mp hp with rfl | hmem
          · exact getColumnIndex_lt _ _ _ hg
          · exact ih tl hr p hmem
    | lit v => simp only [resolveSets] at h; cases h
    | bin l op r => simp only [resolveSets] at h; cases h

/-- Applying SET clauses with in-range targets keeps a row well-formed
(each write is validated before it happens). -/
theorem applySets_rowOk (t : Table) (cls : List (Nat × Value)) (row : List Value)
    (hrow : rowOk t.columns row) (hb : ∀ p ∈ cls, p.1 < t.columns.length) :
    rowOk t.columns (applySets t cls row).2 := by
  induction cls generalizing row with
  | nil => exact hrow
  | cons q rest ih =>
    obtain ⟨i, v⟩ := q
    unfold applySets
    by_cases hv : validateType v ((t.columns.getD i ⟨"", .int⟩).type) = true
    · rw [if_pos hv]
      exact ih (row.set i v)
        (rowOk_set _ _ _ _ hrow (hb (i, v) (List.mem_cons_self _ _)) hv)
        (fun p hp => hb p (List.mem_cons_of_mem _ hp))
    · rw [if_neg hv]
      exact hrow

/-- The rows left in the table by the UPDATE scan, whichever way it
ends. -/
def ScanOut.outRows : ScanOut → List (List Value)
  | .done rs _ => rs
  | .failed rs => rs
  | .crashed rs => rs

/-- Every row left behind by the UPDATE scan is well-formed. -/
theorem updateScan_outRows_ok (t : Table) (w : Option Cond) (cls : List (Nat × Value))
    (hb : ∀ p ∈ cls, p.1 < t.columns.length) (rows : List (List Value)) :
    (∀ r ∈ rows, rowOk t.columns r) →
    ∀ r ∈ (updateScan t w cls rows).outRows, rowOk t.columns r := by
  induction rows with
  | nil =>
    intro _ r hr
    cases hr
  | cons row rest ih =>
    intro hrows r hr
    unfold updateScan at hr
    cases hq : rowQualifies w t row with
    | none =>
      rw [hq] at hr
      exact hrows r hr
    | some b =>
      rw [hq] at hr
      cases b with
      | false =>
        cases hrec : updateScan t w cls rest with
        | done rs n =>
          rw [hrec] at hr
          rcases List.mem_cons.mp hr with rfl | hmem
          · exact hrows r (List.mem_cons_self _ _)
          · have := ih (fun r1 h1 => hrows r1 (List.mem_cons_of_mem _ h1)) r
            rw [hrec] at this
            exact this hmem
        | failed rs =>
          rw [hrec] at hr
          rcases List.mem_cons.mp hr with rfl | hmem
          · exact hrows r (List.mem_cons_self _ _)
          · have := ih (fun r1 h1 => hrows r1 (List.mem_cons_of_mem _ h1)) r
            rw [hrec] at this
            exact this hmem
        | crashed rs =>
          rw [hrec] at hr
          rcases List.mem_cons.mp hr with rfl | hmem
          · exact hrows r (List.mem_cons_self _ _)
          · have := ih (fun r1 h1 => hrows r1 (List.mem_cons_of_mem _ h1)) r
            rw [hrec] at this
            exact this hmem
      | true =>
        cases hap : applySets t cls row with
        | mk ok2 row2 =>
          rw [hap] at hr
          have hrow2ok : rowOk t.columns row2 := by
            have h0 := applySets_rowOk t cls row (hrows row (List.mem_cons_self _ _)) hb
            rw [hap] at h0
            exact h0
          cases ok2 with
          | false =>
            rcases List.mem_cons.mp hr with rfl | hmem
            · exact hrow2ok
            · exact hrows r (List.mem_cons_of_mem _ hmem)
          | true =>
            cases hrec : updateScan t w cls rest with
            | done rs n =>
              rw [hrec] at hr
              rcases List.mem_cons.mp hr with rfl | hmem
              · exact hrow2ok
              · have := ih (fun r1 h1 => hrows r1 (List.mem_cons_of_mem _ h1)) r
                rw [hrec] at this
                exact this hmem
            | failed rs =>
              rw [hrec] at hr
              rcases List.mem_cons.mp hr with rfl | hmem
              · exact hrow2ok
              · have := ih (fun r1 h1 => hrows r1 (List.mem_cons_of_mem _ h1)) r
                rw [hrec] at this
                exact this hmem
            | crashed rs =>
              rw [hrec] at hr
              rcases List.mem_cons.mp hr with rfl | hmem
              · exact hrow2ok
              · have := ih (fun r1 h1 => hrows r1 (List.mem_cons_of_mem _ h1)) r
                rw [hrec] at this
                exact this hmem

/-- UPDATE preserves the catalog invariant. -/
theorem executeUpdate_dbOk (ast : UpdateAst) (db : Database) (hdb : dbOk db) :
    dbOk (executeUpdate ast db).2 := by
  unfold executeUpdate
  cases ht : getTable db ast.table with
  | none => exact hdb
  | some t =>
    dsimp only
    have hmem := getTable_entry db ast.table t ht
    have hkey : strLower t.name = strLower ast.table := (hdb.1 _ hmem).symm
    have htOk : tableOk t := hdb.2.2 _ hmem
    cases hres : resolveSets t ast.setClauses with
    | none => exact hdb
    | some cls =>
      dsimp only
      have hb := resolveSets_bounds t ast.setClauses cls hres
      have hscan := updateScan_outRows_ok t ast.whereClause cls hb t.rows htOk
      cases hsc : updateScan t ast.whereClause cls t.rows with
      | done rs n =>
        dsimp only
        apply setTable_dbOk db _ { t with rows := rs } hdb hkey
        intro row hrow
        apply hscan
        rw [hsc]
        exact hrow
      | failed rs =>
        dsimp only
        apply setTable_dbOk db _ { t with rows := rs } hdb hkey
        intro row hrow
        apply hscan
        rw [hsc]
        exact hrow
      | crashed rs =>
        dsimp only
        apply setTable_dbOk db _ { t with rows := rs } hdb hkey
        intro row hrow
        apply hscan
        rw [hsc]
        exact hrow

/-- Rows kept by the DELETE partition come from the original row list. -/
theorem deleteScan_keep_mem (t : Table) (w : Cond) (rows keep : List (List Value))
    (n : Nat) (h : deleteScan t w rows = some (keep, n)) : ∀ r ∈ keep, r ∈ rows := by
  induction rows generalizing keep n with
  | nil =>
    cases h
    intro r hr
    cases hr
  | cons row rest ih =>
    unfold deleteScan at h
    cases hc : evaluateCondition t row w with
    | none => rw [hc] at h; cases h
    | some cv =>
      rw [hc] at h
      cases hrec : deleteScan t w rest with
      | none => rw [hrec] at h; cases h
      | some p =>
        obtain ⟨k1, n1⟩ := p
        rw [hrec] at h
        dsimp only at h
        by_cases htr : cv.truthy = true
        · rw [if_pos htr] at h
          injection Option.some.inj h with h1 h2
          subst h1
          intro r hr
          exact List.mem_cons_of_mem _ (ih _ _ hrec r hr)
        · rw [if_neg htr] at h
          injection Option.some.inj h with h1 h2
          subst h1
          intro r hr
          rcases List.mem_cons.mp hr with rfl | hmem
          · exact List.mem_cons_self _ _
          · exact List.mem_cons_of_mem _ (ih _ _ hrec r hmem)

/-- DELETE preserves the catalog invariant. -/
theorem executeDelete_dbOk (ast : DeleteAst) (db : Database) (hdb : dbOk db) :
    dbOk (executeDelete ast db).2 := by
  unfold executeDelete
  cases ht : getTable db ast.table with
  | none => exact hdb
  | some t =>
    dsimp only
    have hmem := getTable_entry db ast.table t ht
    have hkey : strLower t.name = strLower ast.table := (hdb.1 _ hmem).symm
    have htOk : tableOk t := hdb.2.2 _ hmem
    cases hw : ast.whereClause with
    | none =>
      dsimp only
      apply setTable_dbOk db _ { t with rows := [] } hdb hkey
      intro row hrow
      cases hrow
    | some w =>
      dsimp only
      cases hds : deleteScan t w t.rows with
      | none => exact hdb
      | some p =>
        obtain ⟨keep, n⟩ := p
        dsimp only
        apply setTable_dbOk db _ { t with rows := keep } hdb hkey
        intro row hrow
        exact htOk row (deleteScan_keep_mem t w t.rows keep n hds row hrow)

/-- Every single statement preserves the catalog invariant. -/
theorem execStmt_dbOk (s : Stmt) (db : Database) (hdb : dbOk db) :
    dbOk (execStmt s db) := by
  cases s with
  | create ast => exact executeCreate_dbOk ast db hdb
  | drop ast => exact executeDrop_dbOk ast db hdb
  | insert ast => exact executeInsert_dbOk ast db hdb
  | update ast => exact executeUpdate_dbOk ast db hdb
  | delete ast => exact executeDelete_dbOk ast db hdb

/-- The empty catalog satisfies the invariant. -/
theorem dbOk_empty : dbOk Database.empty :=
  ⟨fun e he => absurd he (List.not_mem_nil e), List.nodup_nil,
    fun e he => absurd he (List.not_mem_nil e)⟩

/-- The claim's runtime-category table: INT holds integers, FLOAT holds
integers or floats, TEXT and DATE hold strings. -/
def typeCat (v : Value) (ty : SqlType) : Prop :=
  match ty with
  | .int => v.isInt = true
  | .float => v.isInt = true ∨ v.isFloat = true
  | .text => v.isStr = true
  | .date => v.isStr = true

/-- A validated non-null cell falls in the claim's runtime category for
its declared type. -/
theorem validateType_true_elim (v : Value) (ty : SqlType)
    (hv : validateType v ty = true) (hnn : v ≠ .null) :
    typeCat v ty := by
  cases v with
  | null => exact absurd rfl hnn
  | vint n =>
    cases ty with
    | int => exact rfl
    | float => exact Or.inl rfl
    | text => exact Bool.noConfusion hv
    | date => exact Bool.noConfusion hv
  | vfloat q =>
    cases ty with
    | int => exact Bool.noConfusion hv
    | float => exact Or.inr rfl
    | text => exact Bool.noConfusion hv
    | date => exact Bool.noConfusion hv
  | vstr st =>
    cases ty with
    | int => exact Bool.noConfusion hv
    | float => exact Bool.noConfusion hv
    | text => exact rfl
    | date => exact rfl

/-- The claim's formulation of the catalog invariants: case-insensitively
unique table names, full-length rows, and typed non-null cells. -/
def catalogInvariant (db : Database) : Prop :=
  db.tables.Pairwise (fun a b => strLower a.2.name ≠ strLower b.2.name) ∧
  (∀ e ∈ db.tables, ∀ row ∈ e.2.rows, row.length = e.2.columns.length) ∧
  (∀ e ∈ db.tables, ∀ row ∈ e.2.rows, ∀ i, i < row.length →
    row.getD i .null ≠ Value.null →
    typeCat (row.getD i .null) ((e.2.columns.getD i ⟨"", .int⟩).type))

/-- The internal invariant implies the claim's formulation. -/
theorem dbOk_catalogInvariant (db : Database) (h : dbOk db) : catalogInvariant db := by
  obtain ⟨hkeys, hnd, htabs⟩ := h
  refine ⟨?_, ?_, ?_⟩
  · have hp : db.tables.Pairwise (fun a b => a.1 ≠ b.1) :=
      (List.pairwise_map).mp hnd
    apply List.Pairwise.imp_of_mem ?_ hp
    intro a b ha hb hne hEq
    exact hne (by rw [hkeys a ha, hkeys b hb, hEq])
  · intro e he row hrow
    exact ((htabs e he) row hrow).1
  · intro e he row hrow i hi hnn
    have hro := (htabs e he) row hrow
    have hi2 : i < e.2.columns.length := by
      rw [← hro.1]
      exact hi
    exact validateType_true_elim _ _ (hro.2 i hi2) hnn

/-- Claim C8: every catalog reachable from the empty catalog by any
sequence of CREATE/DROP/INSERT/UPDATE/DELETE statements has
case-insensitively unique table names, rows whose length equals their
table's column count, and non-null cells whose runtime values satisfy
their columns' declared types. -/
theorem catalog_invariant_reachable (ops : List Stmt) :
    catalogInvariant (runStmts ops Database.empty) := by
  apply dbOk_catalogInvariant
  have hstep : ∀ db, dbOk db → dbOk (runStmts ops db) := by
    induction ops with
    | nil => exact fun db h => h
    | cons s rest ih => exact fun db h => ih _ (execStmt_dbOk s db h)
  exact hstep _ dbOk_empty

end SqlSpec
